import Mathlib

/-!
Shallow embedding of the indicator-computation kernel in `funcat/func.py`
(transform adapters with Inf sanitization, the custom recursive smoothing
`SMASeries`, condition counting, rolling-window extrema, cross-over detection
and the `troughbars` pivot scan), together with theorems settling the stated
behavioural properties.

Numeric values are modelled at the exact-rational level of abstraction:
an IEEE double is a rational (`F.fin q`) or one of the non-finite markers
`+Inf`, `-Inf`, `NaN`.  Arithmetic on the markers follows the IEEE/numpy
rules the Python code relies on (numpy scalar division by zero yields
`±Inf`/`NaN` with a warning; it does not raise).  Series whose claims never
mix in non-finite values (rolling windows, cross detection, the pivot scan)
are modelled directly as lists of rationals.
-/

deriving instance DecidableEq for Except

/-- Model of an IEEE double at the exact-rational level: a finite rational,
`+Inf`, `-Inf` or `NaN`. -/
inductive F where
  | fin (q : ℚ)
  | inf
  | neginf
  | nan
deriving DecidableEq, Repr, Inhabited

/-- Largest finite double, `1.7976931348623157e308`, which numpy's
`nan_to_num` substitutes for `+Inf` (negated for `-Inf`). -/
def MAXF : ℚ := 17976931348623157 * 10 ^ 292

namespace F

/-- numpy `nan_to_num` with default arguments: `NaN ↦ 0`,
`+Inf ↦` largest finite double, `-Inf ↦` most negative finite double. -/
def nan2num : F → F
  | .nan => .fin 0
  | .inf => .fin MAXF
  | .neginf => .fin (-MAXF)
  | .fin q => .fin q

/-- IEEE addition on the model. -/
def add : F → F → F
  | .nan, _ => .nan
  | _, .nan => .nan
  | .fin a, .fin b => .fin (a + b)
  | .inf, .neginf => .nan
  | .neginf, .inf => .nan
  | .inf, _ => .inf
  | _, .inf => .inf
  | .neginf, _ => .neginf
  | _, .neginf => .neginf

/-- Multiplication of the model value by an integer scalar (IEEE rules:
`0 * ±Inf = NaN`). -/
def zmul (k : ℤ) : F → F
  | .nan => .nan
  | .fin q => .fin (k * q)
  | .inf => if 0 < k then .inf else if k < 0 then .neginf else .nan
  | .neginf => if 0 < k then .neginf else if k < 0 then .inf else .nan

/-- Division of the model value by an integer scalar, with numpy float64
semantics at zero: `q/0 = ±Inf` by the sign of `q`, `0/0 = NaN`,
`±Inf/0 = ±Inf`; no exception is raised. -/
def zdiv (x : F) (n : ℤ) : F :=
  if n = 0 then
    match x with
    | .fin q => if 0 < q then .inf else if q < 0 then .neginf else .nan
    | .inf => .inf
    | .neginf => .neginf
    | .nan => .nan
  else
    match x with
    | .fin q => .fin (q / n)
    | .inf => if 0 < n then .inf else .neginf
    | .neginf => if 0 < n then .neginf else .inf
    | .nan => .nan

end F

/-- Effect of `series[series == np.inf] = np.nan` on one element
(numpy `==` matches only `+Inf`; `NaN` compares unequal to everything). -/
def subInfNaN (x : F) : F := if x = F.inf then F.nan else x

/-- Effect of `series[series == np.inf] = 0; series[series == -np.inf] = 0`
on one element (the `SumSeries`/`AbsSeries` sanitization). -/
def subInfZero (x : F) : F :=
  if x = F.inf then F.fin 0 else if x = F.neginf then F.fin 0 else x

/-- `OneArgumentSeries.__init__(series, arg)` for a `NumericSeries` input.
In the Python code `series = series.series` rebinds the local name to the
caller's ndarray (no copy is taken), and `series[series == np.inf] = np.nan`
writes through that alias; the first component of the result is therefore
the contents of the caller's buffer after the call, the second the series
handed to the base-class constructor.  The external TA-Lib transform is a
parameter. -/
def OneArgumentSeries_init (func : List F → ℤ → List F) (series : List F)
    (arg : ℤ) : List F × List F :=
  let s := series.map subInfNaN
  (s, func s arg)

/-- `SumSeries.__init__(series, period)` for a `NumericSeries` input, with
the same aliasing as `OneArgumentSeries`: `series[series == np.inf] = 0` and
`series[series == -np.inf] = 0` mutate the caller's buffer (first
component); `talib.SUM` is a parameter. -/
def SumSeries_init (sum : List F → ℤ → List F) (series : List F)
    (period : ℤ) : List F × List F :=
  let s := series.map subInfZero
  (s, sum s period)

/-- The in-place loop of `SMASeries.func`: for `i` in
`range(1, len(series))`, `results[i] = ((n - 1) * results[i - 1] +
results[i]) / n`.  `i` is the next index to process and `fuel` the number of
remaining iterations. -/
def smaLoop (n : ℤ) : List F → Nat → Nat → List F
  | results, _, 0 => results
  | results, i, fuel + 1 =>
      smaLoop n
        (results.set i
          ((F.zmul (n - 1) (results.getD (i - 1) default)).add
            (results.getD i default) |>.zdiv n))
        (i + 1) fuel

/-- `SMASeries.func(series, n, _)`: `results = np.nan_to_num(series).copy()`
followed by the left-to-right recurrence over `range(1, len(series))`. -/
def SMA_func (series : List F) (n : ℤ) : List F :=
  smaLoop n (series.map F.nan2num) 1 (series.length - 1)

/-- The series stored by `SMASeries(series, n, _)` built over a
`NumericSeries` input: `TwoArgumentSeries.__init__` first substitutes `NaN`
for `+Inf`, then calls `SMASeries.func`, whose numpy operations warn but
never raise, so the surrounding `try`/`except` is inert on this path. -/
def SMASeries_calc (series : List F) (n : ℤ) : List F :=
  SMA_func (series.map subInfNaN) n

/-- A Python argument as `CCISeries.__init__` discriminates it: either a
`NumericSeries` carrying a buffer, or any other object. -/
inductive PyArg where
  | numeric (s : List F)
  | other
deriving DecidableEq

/-- `CCISeries.__init__(high, low, close)`: when all three arguments are
`NumericSeries`, sanitize the three buffers and hand `talib.CCI`'s output
(the parameter `cci`) to the base-class constructor; otherwise the entire
body is skipped — no error, no base-class call.  `some buf` means
`NumericSeries.__init__` ran with buffer `buf`; `none` means it was never
invoked, so the object carries no underlying series. -/
def CCISeries_init (cci : List F → List F → List F → List F)
    (high low close : PyArg) : Except String (Option (List F)) :=
  match high, low, close with
  | .numeric h, .numeric l, .numeric c =>
      .ok (some (cci (h.map subInfNaN) (l.map subInfNaN) (c.map subInfNaN)))
  | _, _, _ => .ok none

/-- Python `series[-n:]`: the last `n` elements (for `n = 0` the slice
`[0:]` is the whole list). -/
def lastWindow (series : List Bool) (n : Nat) : List Bool :=
  if n = 0 then series else series.drop (series.length - n)

/-- The loop of `count`: `for i in range(size - 1, 0, -1)` assigns
`result[i] = len(s[s == True])` from the last `n` of the progressively
truncated series; `i = 0` is never reached, so `result[0]` keeps its
initial `0`. -/
def countLoop (n : Nat) : List Bool → List Nat → Nat → List Nat
  | _, result, 0 => result
  | series, result, i + 1 =>
      countLoop n series.dropLast
        (result.set (i + 1) ((lastWindow series n).countP (· = true))) i

/-- `count(cond, n)`: `size = len(cond.series) - n` is a possibly negative
Python int; `np.full` raises `ValueError` on a negative size, re-raised as
`FormulaException`; otherwise the result is initialized to zeros and filled
by the downward loop. -/
def count_calc (cond : List Bool) (n : Nat) : Except String (List Nat) :=
  if (cond.length : ℤ) - n < 0 then .error "FormulaException"
  else
    let size := cond.length - n
    .ok (countLoop n cond (List.replicate size 0) (size - 1))

/-- `every(cond, n)`: `count(cond, n) == n`, the comparison applied
elementwise by the series `==` operator. -/
def every_calc (cond : List Bool) (n : Nat) : Except String (List Bool) :=
  (count_calc cond n).map (List.map (fun c => decide (c = n)))

/-- Modelled from the spec: `rolling_window` (in `funcat.utils`, not under
`src/`) produces, for `n ≤ L`, the `L − n + 1` windows of `n` consecutive
observations sliding by one (§4.4). -/
def rollingWindows (s : List ℚ) (n : Nat) : List (List ℚ) :=
  (List.range (s.length - n + 1)).map fun i => (s.drop i).take n

/-- Maximum of a list as numpy's `max` computes it over a nonempty window
(`0` only for the never-occurring empty case). -/
def listMax : List ℚ → ℚ
  | [] => 0
  | x :: xs => xs.foldl max x

/-- Minimum of a list, as numpy's `min` over a nonempty window. -/
def listMin : List ℚ → ℚ
  | [] => 0
  | x :: xs => xs.foldl min x

/-- numpy `argmax`: index of the first occurrence of the maximum. -/
def argmaxIdx (l : List ℚ) : Nat := l.findIdx fun x => decide (x = listMax l)

/-- `hhv(s, n)`: `size = len - n` feeds `np.full`, which raises `ValueError`
for a negative size (re-raised as `FormulaException`); the array so created
is then discarded and replaced by `np.max` over the rolling windows. -/
def hhv_calc (s : List ℚ) (n : Nat) : Except String (List ℚ) :=
  if (s.length : ℤ) - n < 0 then .error "FormulaException"
  else .ok ((rollingWindows s n).map listMax)

/-- `llv(s, n)`: as `hhv` with `np.min`. -/
def llv_calc (s : List ℚ) (n : Nat) : Except String (List ℚ) :=
  if (s.length : ℤ) - n < 0 then .error "FormulaException"
  else .ok ((rollingWindows s n).map listMin)

/-- `hhvbars(s, n)`: as `hhv` with `np.argmax` over the rolling windows. -/
def hhvbars_calc (s : List ℚ) (n : Nat) : Except String (List Nat) :=
  if (s.length : ℤ) - n < 0 then .error "FormulaException"
  else .ok ((rollingWindows s n).map argmaxIdx)

/-- Modelled from the spec (§4.1): `fit_series` (in `funcat.time_series`,
not under `src/`) trims its inputs to their common trailing window of
length `min` of the lengths, keeping each input's most recent suffix. -/
def fitSeries (a b : List α) : List α × List α :=
  (a.drop (a.length - min a.length b.length),
   b.drop (b.length - min a.length b.length))

/-- Modelled from the spec (§3, §4.6): the one-bar-ago view `s[1]` of a
series is the series as of the previous bar, i.e. the input without its
last (most recent) observation. -/
def agoView (s : List ℚ) : List ℚ := s.dropLast

/-- `CrossOver(s1, s2)`: `cond1 = series1 > series2` on the aligned
current-bar series, `cond2 = series1 <= series2` on the aligned one-bar-ago
series, the two condition series aligned again and conjoined. -/
def CrossOver (s1 s2 : List ℚ) : List Bool :=
  let p := fitSeries s1 s2
  let cond1 := List.zipWith (fun x y => decide (y < x)) p.1 p.2
  let q := fitSeries (agoView s1) (agoView s2)
  let cond2 := List.zipWith (fun x y => decide (x ≤ y)) q.1 q.2
  let r := fitSeries cond1 cond2
  List.zipWith and r.1 r.2

/-- The scan of `troughbars(s, n, m)` over the pivot-value list `z_in_p`
(the pivot extraction `zig_helper` is a supplied primitive per §4.8; the
stated properties quantify over the pivot-value list, which this function
takes directly).  `for i in range(len - 1, 1, -1)`: first `if count == m:
return i`, then `if z_in_p[i] < z_in_p[i - 1]: count += 1`; after the loop
`return 0`. -/
def tbLoop (z : List ℚ) (m : Nat) : Nat → Nat → Nat
  | 0, _ => 0
  | 1, _ => 0
  | i + 2, cnt =>
      if cnt = m then i + 2
      else tbLoop z m (i + 1)
        (if z.getD (i + 2) 0 < z.getD (i + 1) 0 then cnt + 1 else cnt)

/-- `troughbars` applied to a pivot-value list: the scan starts at the most
recent pivot index `len - 1` with `count = 0`. -/
def troughbars_scan (z : List ℚ) (m : Nat) : Nat :=
  tbLoop z m (z.length - 1) 0

/-- Number of adjacent pivot-to-pivot decreases (`z[i] < z[i-1]`) at scanned
positions `i ∈ [2, bound]`. -/
def decCount (z : List ℚ) : Nat → Nat
  | 0 => 0
  | 1 => 0
  | i + 2 =>
      (if z.getD (i + 2) 0 < z.getD (i + 1) 0 then 1 else 0) +
        decCount z (i + 1)

/-- Follows the spec's words (§4.8), as the refinement target: scanning the
pivot-value list from the most recent pivot backward and never evaluating
indices 0 or 1, the pivot-list index at which the `m`-th adjacent decrease
is encountered (`none` when fewer than `m` decreases exist). -/
def mdLoop (z : List ℚ) (m : Nat) : Nat → Nat → Option Nat
  | 0, _ => none
  | 1, _ => none
  | i + 2, cnt =>
      if z.getD (i + 2) 0 < z.getD (i + 1) 0 then
        (if cnt + 1 = m then some (i + 2) else mdLoop z m (i + 1) (cnt + 1))
      else mdLoop z m (i + 1) cnt

/-- Index of the `m`-th adjacent decrease encountered scanning backward,
per the spec's words. -/
def specMthDecreaseIdx (z : List ℚ) (m : Nat) : Option Nat :=
  mdLoop z m (z.length - 1) 0

example : count_calc [true, false, true, true, false] 2 =
    .ok [0, 2, 1] := by decide

example : every_calc [true, false, true, true, false] 2 =
    .ok [false, true, false] := by decide

example : hhv_calc [1, 3, 2, 5, 4] 3 = .ok [3, 5, 5] := by decide

example : hhvbars_calc [1, 3, 2, 5, 4] 3 = .ok [1, 2, 1] := by decide

example : CrossOver [1, 3, 2] [2, 2, 2] = [true, false] := by decide

example : troughbars_scan [0, 0, 1, 0] 1 = 2 := by decide

example : specMthDecreaseIdx [0, 0, 1, 0] 1 = some 3 := by decide

example : SMASeries_calc [.fin 0, .fin 3, .fin 6] 3 =
    [.fin 0, .fin 1, .fin (8 / 3)] := by
  simp [SMASeries_calc, SMA_func, smaLoop, subInfNaN, F.nan2num, F.zmul,
    F.add, F.zdiv]
  norm_num

example : SMASeries_calc [.fin 1, .fin 2] 0 = [.fin 1, .inf] := by
  simp [SMASeries_calc, SMA_func, smaLoop, subInfNaN, F.nan2num, F.zmul,
    F.add, F.zdiv]

example : SMASeries_calc [.neginf] 3 = [.fin (-MAXF)] := by
  simp [SMASeries_calc, SMA_func, smaLoop, subInfNaN, F.nan2num]

/-! ### Generic list helpers -/

theorem getD_of_lt (l : List α) (j : Nat) (d : α) (h : j < l.length) :
    l.getD j d = l[j] := by
  simp [List.getD_eq_getElem?_getD, List.getElem?_eq_getElem h]

theorem getD_set_ne (l : List α) {i j : Nat} (a d : α) (h : i ≠ j) :
    (l.set i a).getD j d = l.getD j d := by
  simp [List.getD_eq_getElem?_getD, List.getElem?_set, h]

theorem getD_set_self (l : List α) {i : Nat} (a d : α) (h : i < l.length) :
    (l.set i a).getD i d = a := by
  simp [List.getD_eq_getElem?_getD, List.getElem?_set, h]

/-! ### C1 -/

/-- C1: the claim that the Inf-substitution sanitization is performed on a
private copy and the caller's buffer is unchanged fails on the code: the
transform entry points rebind `series = series.series` (an alias, not a
copy) and substitute in place, so after constructing a `OneArgumentSeries`
over the buffer `[+Inf, 1]` the caller reads `[NaN, 1]`, and after
`SumSeries` it reads `[0, 1]` — in both cases not the original buffer. -/
theorem c1_sanitization_mutates_caller_buffer :
    (OneArgumentSeries_init (fun s _ => s) [F.inf, F.fin 1] 5).1 =
      [F.nan, F.fin 1] ∧
    (SumSeries_init (fun s _ => s) [F.inf, F.fin 1] 2).1 =
      [F.fin 0, F.fin 1] ∧
    [F.nan, F.fin 1] ≠ [F.inf, F.fin 1] ∧
    [F.fin 0, F.fin 1] ≠ [F.inf, F.fin 1] := by
  refine ⟨rfl, rfl, by decide, by decide⟩

/-! ### C2 -/

/-- C2 (counterexample): on the boolean series `[T,F,T,T,F]` with `n = 2`,
`count` does not return `[1, 2, 1]` — the loop
`for i in range(size - 1, 0, -1)` never assigns slot 0, which keeps its
initialized `0`. -/
theorem c2_count_example_counterexample :
    count_calc [true, false, true, true, false] 2 ≠ .ok [1, 2, 1] := by
  decide

/-- C2 (amended): on `[T,F,T,T,F]` with `n = 2`, `count` returns
`[0, 2, 1]` — the trailing-pair counts `2` and `1` at slots 1 and 2, and an
unassigned `0` at slot 0 — and `every` returns `[false, true, false]`. -/
theorem c2_count_every_amended :
    count_calc [true, false, true, true, false] 2 = .ok [0, 2, 1] ∧
    every_calc [true, false, true, true, false] 2 =
      .ok [false, true, false] := by
  decide

/-! ### C4 -/

/-- C4: the claim that `SMASeries` rejects `n = 0` with an explicit error
fails on the code: `SMASeries.func` contains no parameter check, numpy
scalar division by zero only warns, and the computation silently produces
`Inf` — on input `[1, 2]` with `n = 0` the stored series is `[1, +Inf]`
and no exception propagates. -/
theorem c4_sma_zero_factor_silent_inf :
    SMASeries_calc [F.fin 1, F.fin 2] 0 = [F.fin 1, F.inf] := by
  simp [SMASeries_calc, SMA_func, smaLoop, subInfNaN, F.nan2num, F.zmul,
    F.add, F.zdiv]

/-! ### C7 -/

theorem tbLoop_eq_zero (z : List ℚ) (m : Nat) :
    ∀ i cnt, cnt + decCount z i < m → tbLoop z m i cnt = 0 := by
  intro i
  induction i using Nat.strong_induction_on with
  | _ i ih =>
    match i with
    | 0 => intro cnt _; rfl
    | 1 => intro cnt _; rfl
    | j + 2 =>
      intro cnt h
      have hcnt : ¬ cnt = m := by
        simp only [decCount] at h; omega
      rw [tbLoop, if_neg hcnt]
      apply ih (j + 1) (by omega)
      simp only [decCount] at h
      by_cases hd : z.getD (j + 2) 0 < z.getD (j + 1) 0
      · rw [if_pos hd] at h ⊢; omega
      · rw [if_neg hd] at h ⊢; omega

/-- C7: whenever fewer than `m` adjacent pivot-to-pivot decreases exist in
the scanned range (positions from the most recent pivot down to index 2),
`troughbars` returns `0`. -/
theorem c7_troughbars_zero_when_few_decreases (z : List ℚ) (m : Nat)
    (h : decCount z (z.length - 1) < m) : troughbars_scan z m = 0 :=
  tbLoop_eq_zero z m (z.length - 1) 0 (by omega)

/-- Witness for C7: the pivot list `[0, 0, 1, 0]` has a single decrease in
the scanned range, so `troughbars` with `m = 2` returns `0`. -/
theorem c7_troughbars_zero_witness :
    decCount [0, 0, 1, 0] 3 < 2 ∧ troughbars_scan [0, 0, 1, 0] 2 = 0 :=
  ⟨by decide, c7_troughbars_zero_when_few_decreases [0, 0, 1, 0] 2 (by decide)⟩

/-! ### C8 -/

/-- C8: for a window larger than the series, `hhv` and `llv` fail with
`FormulaException` (the negative `np.full` size raises `ValueError`, caught
and re-raised), never returning a series. -/
theorem c8_hhv_llv_insufficient_data (s : List ℚ) (n : Nat)
    (h : s.length < n) :
    hhv_calc s n = .error "FormulaException" ∧
    llv_calc s n = .error "FormulaException" := by
  have h' : (s.length : ℤ) - n < 0 := by omega
  exact ⟨by simp [hhv_calc, h'], by simp [llv_calc, h']⟩

/-- Witness for C8: a length-1 series with window 2. -/
theorem c8_hhv_llv_insufficient_data_witness :
    hhv_calc [1] 2 = .error "FormulaException" ∧
    llv_calc [1] 2 = .error "FormulaException" :=
  c8_hhv_llv_insufficient_data [1] 2 (by decide)

/-! ### C10 -/

/-- C10: if any of the three constructor arguments is not a
`NumericSeries`, `CCISeries.__init__` returns without raising and without
ever invoking the base-class `NumericSeries` constructor, so the object
carries no underlying series buffer. -/
theorem c10_cci_non_numeric_skips_base_init
    (cci : List F → List F → List F → List F) (high low close : PyArg)
    (h : high = PyArg.other ∨ low = PyArg.other ∨ close = PyArg.other) :
    CCISeries_init cci high low close = .ok none := by
  rcases h with h | h | h <;> subst h
  · cases low <;> cases close <;> rfl
  · cases high <;> cases close <;> rfl
  · cases high <;> cases low <;> rfl

/-- Witness for C10: a non-series `high` argument beside two genuine
series. -/
theorem c10_cci_non_numeric_skips_base_init_witness :
    CCISeries_init (fun _ _ _ => []) PyArg.other (PyArg.numeric [F.fin 1])
      (PyArg.numeric [F.fin 2]) = .ok none :=
  c10_cci_non_numeric_skips_base_init (fun _ _ _ => []) PyArg.other
    (PyArg.numeric [F.fin 1]) (PyArg.numeric [F.fin 2]) (Or.inl rfl)

/-! ### C5 -/

theorem smaLoop_length (n : ℤ) :
    ∀ (fuel : Nat) (res : List F) (i : Nat),
      (smaLoop n res i fuel).length = res.length := by
  intro fuel
  induction fuel with
  | zero => intro res i; rfl
  | succ fuel ih =>
    intro res i
    simp only [smaLoop]
    rw [ih]
    simp

theorem smaLoop_getD_of_lt (n : ℤ) (d : F) :
    ∀ (fuel : Nat) (res : List F) (i j : Nat), j < i →
      (smaLoop n res i fuel).getD j d = res.getD j d := by
  intro fuel
  induction fuel with
  | zero => intro res i j _; rfl
  | succ fuel ih =>
    intro res i j hj
    simp only [smaLoop]
    rw [ih _ _ _ (by omega)]
    exact getD_set_ne _ _ _ (by omega)

theorem smaLoop_getD_rec (n : ℤ) (d : F) :
    ∀ (fuel : Nat) (res : List F) (i k : Nat), 1 ≤ i → i ≤ k →
      k < i + fuel → k < res.length →
      (smaLoop n res i fuel).getD k d =
        ((F.zmul (n - 1) ((smaLoop n res i fuel).getD (k - 1) d)).add
          (res.getD k d)).zdiv n := by
  intro fuel
  induction fuel with
  | zero => intro res i k _ h2 h3 _; omega
  | succ fuel ih =>
    intro res i k h1 h2 h3 hk
    simp only [smaLoop]
    set res' := res.set i
      ((F.zmul (n - 1) (res.getD (i - 1) default)).add
        (res.getD i default) |>.zdiv n) with hres'
    have hlen : res'.length = res.length := by rw [hres']; simp
    by_cases hik : k = i
    · subst hik
      rw [smaLoop_getD_of_lt n d fuel res' (k + 1) k (by omega)]
      rw [smaLoop_getD_of_lt n d fuel res' (k + 1) (k - 1) (by omega)]
      rw [hres']
      rw [getD_set_self res _ _ hk]
      rw [getD_set_ne res _ _ (show k ≠ k - 1 by omega)]
      rw [getD_of_lt res (k - 1) d (by omega),
          getD_of_lt res (k - 1) default (by omega),
          getD_of_lt res k d hk, getD_of_lt res k default hk]
    · rw [ih res' (i + 1) k (by omega) (by omega) (by omega)
        (by rw [hlen]; exact hk)]
      rw [hres', getD_set_ne res _ _ (show i ≠ k by omega)]

/-- C5 (counterexample): on the input `[-Inf]` the sanitized value is not
`0` — `TwoArgumentSeries.__init__` only rewrites `+Inf`, and `nan_to_num`
replaces `-Inf` with the most negative finite double — so the claimed
"non-finite values first replaced with 0" fails. -/
theorem c5_sma_neginf_counterexample :
    SMASeries_calc [F.neginf] 3 = [F.fin (-MAXF)] ∧
    SMASeries_calc [F.neginf] 3 ≠ [F.fin 0] := by
  have h : SMASeries_calc [F.neginf] 3 = [F.fin (-MAXF)] := by
    simp [SMASeries_calc, SMA_func, smaLoop, subInfNaN, F.nan2num]
  refine ⟨h, ?_⟩
  rw [h]
  simp [MAXF]

/-- C5 (amended): for every input series and every `n > 0`, `SMASeries`
first sanitizes the input (`+Inf` and `NaN` become `0`; `-Inf` becomes the
most negative finite double) and then computes strictly left to right:
slot 0 holds the sanitized input, and slot `k` holds
`((n - 1) * result[k-1] + sanitized[k]) / n`; on all-finite input the
arithmetic is the exact rational one, so `[0, 3, 6]` with `n = 3` yields
`[0, 1, 8/3]`. -/
theorem c5_sma_recurrence (series : List F) (n : ℤ) (_hn : 0 < n) :
    (SMASeries_calc series n).getD 0 (F.fin 0) =
      (series.map fun x => (subInfNaN x).nan2num).getD 0 (F.fin 0) ∧
    ∀ k, 1 ≤ k → k < series.length →
      (SMASeries_calc series n).getD k (F.fin 0) =
        ((F.zmul (n - 1)
          ((SMASeries_calc series n).getD (k - 1) (F.fin 0))).add
          ((series.map fun x => (subInfNaN x).nan2num).getD k
            (F.fin 0))).zdiv n := by
  have hEq : SMASeries_calc series n =
      smaLoop n (series.map fun x => (subInfNaN x).nan2num) 1
        (series.length - 1) := by
    simp only [SMASeries_calc, SMA_func, List.map_map, List.length_map]
    rfl
  constructor
  · rw [hEq]
    exact smaLoop_getD_of_lt n _ _ _ _ _ (by omega)
  · intro k hk1 hk2
    rw [hEq]
    exact smaLoop_getD_rec n (F.fin 0) (series.length - 1)
      (series.map fun x => (subInfNaN x).nan2num) 1 k (by omega) (by omega)
      (by omega) (by simpa using hk2)

/-- Witness for C5: the spec's own example `[0, 3, 6]`, `n = 3`, which
evaluates to `[0, 1, 8/3]` and satisfies the recurrence at slot 2. -/
theorem c5_sma_recurrence_witness :
    SMASeries_calc [F.fin 0, F.fin 3, F.fin 6] 3 =
      [F.fin 0, F.fin 1, F.fin (8 / 3)] ∧
    (SMASeries_calc [F.fin 0, F.fin 3, F.fin 6] 3).getD 2 (F.fin 0) =
      ((F.zmul (3 - 1)
        ((SMASeries_calc [F.fin 0, F.fin 3, F.fin 6] 3).getD (2 - 1)
          (F.fin 0))).add
        (([F.fin 0, F.fin 3, F.fin 6].map fun x =>
          (subInfNaN x).nan2num).getD 2 (F.fin 0))).zdiv 3 := by
  refine ⟨?_, (c5_sma_recurrence [F.fin 0, F.fin 3, F.fin 6] 3
    (by norm_num)).2 2 (by norm_num) (by simp)⟩
  simp [SMASeries_calc, SMA_func, smaLoop, subInfNaN, F.nan2num, F.zmul,
    F.add, F.zdiv]
  norm_num

/-! ### C6 -/

theorem tbLoop_at_count_m (z : List ℚ) (m : Nat) :
    ∀ i, tbLoop z m i m = if i < 2 then 0 else i := by
  intro i
  match i with
  | 0 => rfl
  | 1 => rfl
  | j + 2 => simp [tbLoop]

theorem mdLoop_two_le (z : List ℚ) (m : Nat) :
    ∀ i cnt j, mdLoop z m i cnt = some j → 2 ≤ j := by
  intro i
  induction i using Nat.strong_induction_on with
  | _ i ih =>
    match i with
    | 0 => intro cnt j h; exact absurd h (by simp [mdLoop])
    | 1 => intro cnt j h; exact absurd h (by simp [mdLoop])
    | k + 2 =>
      intro cnt j h
      simp only [mdLoop] at h
      by_cases hd : z.getD (k + 2) 0 < z.getD (k + 1) 0
      · rw [if_pos hd] at h
        by_cases hc : cnt + 1 = m
        · rw [if_pos hc] at h
          injection h with h2
          omega
        · rw [if_neg hc] at h
          exact ih (k + 1) (by omega) _ _ h
      · rw [if_neg hd] at h
        exact ih (k + 1) (by omega) _ _ h

theorem mdLoop_tbLoop (z : List ℚ) (m : Nat) :
    ∀ i cnt j, cnt < m → mdLoop z m i cnt = some j →
      tbLoop z m i cnt = if 3 ≤ j then j - 1 else 0 := by
  intro i
  induction i using Nat.strong_induction_on with
  | _ i ih =>
    match i with
    | 0 => intro cnt j _ h; exact absurd h (by simp [mdLoop])
    | 1 => intro cnt j _ h; exact absurd h (by simp [mdLoop])
    | k + 2 =>
      intro cnt j hcm h
      simp only [mdLoop] at h
      simp only [tbLoop]
      rw [if_neg (show ¬ cnt = m by omega)]
      by_cases hd : z.getD (k + 2) 0 < z.getD (k + 1) 0
      · rw [if_pos hd] at h
        rw [if_pos hd]
        by_cases hc : cnt + 1 = m
        · rw [if_pos hc] at h
          injection h with h2
          subst h2
          rw [hc, tbLoop_at_count_m]
          split_ifs <;> omega
        · rw [if_neg hc] at h
          exact ih (k + 1) (by omega) (cnt + 1) j (by omega) h
      · rw [if_neg hd] at h
        rw [if_neg hd]
        exact ih (k + 1) (by omega) cnt j hcm h

/-- C6 (counterexample): on the pivot-value list `[0, 0, 1, 0]` with
`m = 1`, the first adjacent decrease scanning backward is encountered at
pivot index 3, but `troughbars` does not return 3 — the `count == m` check
precedes the increment, so the return happens one iteration later. -/
theorem c6_troughbars_counterexample :
    specMthDecreaseIdx [0, 0, 1, 0] 1 = some 3 ∧
    troughbars_scan [0, 0, 1, 0] 1 ≠ 3 := by decide

/-- C6 (amended): for every pivot-value list and every `m ≥ 1`, when the
`m`-th adjacent decrease is encountered at pivot-list index `j` (scanning
backward, never evaluating indices 0 or 1, so `j ≥ 2`), `troughbars`
returns `j - 1` when `j ≥ 3`, and `0` when `j = 2` (the loop ends before
the return check runs again). -/
theorem c6_troughbars_returns_prev_index (z : List ℚ) (m j : Nat)
    (hm : 1 ≤ m) (h : specMthDecreaseIdx z m = some j) :
    2 ≤ j ∧ troughbars_scan z m = if 3 ≤ j then j - 1 else 0 :=
  ⟨mdLoop_two_le z m (z.length - 1) 0 j h,
   mdLoop_tbLoop z m (z.length - 1) 0 j (by omega) h⟩

/-- Witness for C6: on `[0, 0, 1, 0]` with `m = 1` the first decrease is at
index 3 and `troughbars` returns `3 - 1 = 2`. -/
theorem c6_troughbars_returns_prev_index_witness :
    2 ≤ 3 ∧ troughbars_scan [0, 0, 1, 0] 1 = if 3 ≤ 3 then 3 - 1 else 0 :=
  c6_troughbars_returns_prev_index [0, 0, 1, 0] 1 3 (by decide) (by decide)

/-! ### More generic list helpers -/

theorem getD_zipWith (f : α → β → γ) (l1 : List α) (l2 : List β) (j : Nat)
    (d : γ) (d1 : α) (d2 : β) (h1 : j < l1.length) (h2 : j < l2.length) :
    (List.zipWith f l1 l2).getD j d = f (l1.getD j d1) (l2.getD j d2) := by
  rw [getD_of_lt _ _ _ (by simp only [List.length_zipWith]; omega),
      getD_of_lt _ _ _ h1, getD_of_lt _ _ _ h2]
  simp [List.getElem_zipWith]

theorem getD_drop' (l : List α) (k j : Nat) (d : α) (h : k + j < l.length) :
    (l.drop k).getD j d = l.getD (k + j) d := by
  rw [getD_of_lt _ _ _ (by simp only [List.length_drop]; omega),
      getD_of_lt _ _ _ h]
  simp

theorem getD_dropLast' (l : List α) (j : Nat) (d : α) (h : j < l.length - 1) :
    l.dropLast.getD j d = l.getD j d := by
  rw [getD_of_lt _ _ _ (by simp only [List.length_dropLast]; omega),
      getD_of_lt _ _ _ (by omega)]
  simp [List.getElem_dropLast]

theorem fitSeries_fst_length (a b : List α) :
    (fitSeries a b).1.length = min a.length b.length := by
  simp only [fitSeries, List.length_drop]
  omega

theorem fitSeries_snd_length (a b : List α) :
    (fitSeries a b).2.length = min a.length b.length := by
  simp only [fitSeries, List.length_drop]
  omega

theorem fitSeries_fst_getD (a b : List α) (j : Nat) (d : α)
    (hj : a.length - min a.length b.length + j < a.length) :
    (fitSeries a b).1.getD j d =
      a.getD (a.length - min a.length b.length + j) d := by
  simp only [fitSeries]
  exact getD_drop' a _ _ _ hj

theorem fitSeries_snd_getD (a b : List α) (j : Nat) (d : α)
    (hj : b.length - min a.length b.length + j < b.length) :
    (fitSeries a b).2.getD j d =
      b.getD (b.length - min a.length b.length + j) d := by
  simp only [fitSeries]
  exact getD_drop' b _ _ _ hj

/-! ### C3 -/

theorem le_foldl_max (xs : List ℚ) : ∀ a : ℚ, a ≤ xs.foldl max a := by
  induction xs with
  | nil => intro a; exact le_refl a
  | cons x xs ih =>
    intro a
    rw [List.foldl_cons]
    exact le_trans (le_max_left a x) (ih (max a x))

theorem mem_le_foldl_max (xs : List ℚ) :
    ∀ (a x : ℚ), x ∈ xs → x ≤ xs.foldl max a := by
  induction xs with
  | nil => intro a x hx; exact absurd hx (List.not_mem_nil x)
  | cons y xs ih =>
    intro a x hx
    rw [List.foldl_cons]
    rcases List.mem_cons.mp hx with rfl | hx'
    · exact le_trans (le_max_right a x) (le_foldl_max xs (max a x))
    · exact ih (max a y) x hx'

theorem foldl_max_mem (xs : List ℚ) :
    ∀ a : ℚ, xs.foldl max a = a ∨ xs.foldl max a ∈ xs := by
  induction xs with
  | nil => intro a; exact Or.inl rfl
  | cons x xs ih =>
    intro a
    rw [List.foldl_cons]
    rcases ih (max a x) with h | h
    · rcases max_choice a x with hm | hm
      · exact Or.inl (h.trans hm)
      · exact Or.inr (List.mem_cons.mpr (Or.inl (h.trans hm)))
    · exact Or.inr (List.mem_cons.mpr (Or.inr h))

theorem le_listMax {l : List ℚ} {x : ℚ} (hx : x ∈ l) : x ≤ listMax l := by
  cases l with
  | nil => exact absurd hx (List.not_mem_nil x)
  | cons a xs =>
    simp only [listMax]
    rcases List.mem_cons.mp hx with rfl | h
    · exact le_foldl_max xs x
    · exact mem_le_foldl_max xs a x h

theorem listMax_mem {l : List ℚ} (h : l ≠ []) : listMax l ∈ l := by
  cases l with
  | nil => exact absurd rfl h
  | cons a xs =>
    simp only [listMax]
    rcases foldl_max_mem xs a with h' | h'
    · rw [h']; exact List.mem_cons_self a xs
    · exact List.mem_cons_of_mem a h'

theorem argmaxIdx_lt_length {l : List ℚ} (h : l ≠ []) :
    argmaxIdx l < l.length :=
  List.findIdx_lt_length_of_exists ⟨listMax l, listMax_mem h, by simp⟩

theorem getElem_argmaxIdx {l : List ℚ} (hlt : argmaxIdx l < l.length) :
    l[argmaxIdx l] = listMax l := by
  have h := List.findIdx_getElem
    (p := fun x => decide (x = listMax l)) (w := hlt)
  simpa using h

theorem getElem_lt_of_lt_argmaxIdx {l : List ℚ} {j : Nat}
    (hj : j < argmaxIdx l) (hl : j < l.length) : l[j] < listMax l := by
  have h1 := List.not_of_lt_findIdx
    (p := fun x => decide (x = listMax l)) hj
  have h2 : l[j] ≠ listMax l := by simpa using h1
  exact lt_of_le_of_ne (le_listMax (List.getElem_mem hl)) h2

theorem rollingWindows_length (s : List ℚ) (n : Nat) :
    (rollingWindows s n).length = s.length - n + 1 := by
  simp [rollingWindows]

theorem rollingWindows_getElem (s : List ℚ) (n k : Nat)
    (hk : k < (rollingWindows s n).length) :
    (rollingWindows s n)[k] = (s.drop k).take n := by
  simp [rollingWindows]

/-- C3 (counterexample): on `[1, 3, 2, 5, 4]` with window 3 the code gives
`[1, 2, 1]`, not the claimed `[1, 2, 0]` — the last window `[2, 5, 4]` has
its maximum `5` at offset 1, not 0. -/
theorem c3_hhvbars_example_counterexample :
    hhvbars_calc [1, 3, 2, 5, 4] 3 ≠ .ok [1, 2, 0] := by decide

/-- C3 (amended): every output position of `hhvbars` holds the offset, from
the start of its sliding window, of the first occurrence of the window
maximum (the value reported by `hhv`): the offset is `< n`, attains the
window maximum, every earlier element of the window is strictly smaller,
and every element of the window is `≤` it; on `[1, 3, 2, 5, 4]` with
`n = 3`, `hhv` returns `[3, 5, 5]` and `hhvbars` returns `[1, 2, 1]`. -/
theorem c3_hhvbars_offset_of_first_max (s : List ℚ) (n k : Nat)
    (hn : 1 ≤ n) (hk : k + n ≤ s.length) :
    ∃ hv bv, hhv_calc s n = .ok hv ∧ hhvbars_calc s n = .ok bv ∧
      bv.getD k 0 < n ∧
      ((s.drop k).take n).getD (bv.getD k 0) 0 = hv.getD k 0 ∧
      (∀ j, j < n → ((s.drop k).take n).getD j 0 ≤ hv.getD k 0) ∧
      (∀ j, j < bv.getD k 0 →
        ((s.drop k).take n).getD j 0 < hv.getD k 0) := by
  have hcond : ¬ ((s.length : ℤ) - n < 0) := by omega
  have hklen : k < (rollingWindows s n).length := by
    rw [rollingWindows_length]; omega
  have hw_len : ((s.drop k).take n).length = n := by
    simp only [List.length_take, List.length_drop]; omega
  have hw_ne : (s.drop k).take n ≠ [] :=
    List.ne_nil_of_length_pos (by omega)
  have harg := argmaxIdx_lt_length hw_ne
  have hbv : ((rollingWindows s n).map argmaxIdx).getD k 0 =
      argmaxIdx ((s.drop k).take n) := by
    rw [getD_of_lt _ _ _ (by simpa using hklen), List.getElem_map,
        rollingWindows_getElem s n k hklen]
  have hhvk : ((rollingWindows s n).map listMax).getD k 0 =
      listMax ((s.drop k).take n) := by
    rw [getD_of_lt _ _ _ (by simpa using hklen), List.getElem_map,
        rollingWindows_getElem s n k hklen]
  refine ⟨(rollingWindows s n).map listMax,
    (rollingWindows s n).map argmaxIdx,
    by simp [hhv_calc, hcond], by simp [hhvbars_calc, hcond],
    ?_, ?_, ?_, ?_⟩
  · rw [hbv]; omega
  · rw [hbv, hhvk, getD_of_lt _ _ _ harg]
    exact getElem_argmaxIdx harg
  · intro j hj
    rw [hhvk, getD_of_lt _ _ _ (show j < ((s.drop k).take n).length by omega)]
    exact le_listMax (List.getElem_mem _)
  · intro j hj
    rw [hbv] at hj
    rw [hhvk, getD_of_lt _ _ _
      (show j < ((s.drop k).take n).length by omega)]
    exact getElem_lt_of_lt_argmaxIdx hj (by omega)

/-- Witness for C3: the spec's example series, window 3, last window. -/
theorem c3_hhvbars_offset_witness :
    hhv_calc [1, 3, 2, 5, 4] 3 = .ok [3, 5, 5] ∧
    hhvbars_calc [1, 3, 2, 5, 4] 3 = .ok [1, 2, 1] ∧
    (∃ hv bv, hhv_calc [1, 3, 2, 5, 4] 3 = .ok hv ∧
      hhvbars_calc [1, 3, 2, 5, 4] 3 = .ok bv ∧
      bv.getD 2 0 < 3 ∧
      (([1, 3, 2, 5, 4].drop 2).take 3).getD (bv.getD 2 0) 0 =
        hv.getD 2 0 ∧
      (∀ j, j < 3 →
        (([1, 3, 2, 5, 4].drop 2).take 3).getD j 0 ≤ hv.getD 2 0) ∧
      (∀ j, j < bv.getD 2 0 →
        (([1, 3, 2, 5, 4].drop 2).take 3).getD j 0 < hv.getD 2 0)) :=
  ⟨by decide, by decide,
   c3_hhvbars_offset_of_first_max [1, 3, 2, 5, 4] 3 2 (by decide) (by decide)⟩

/-! ### C9 -/

theorem zip_fit_and_getD (c1 c2 : List Bool) (j : Nat)
    (hlen : c1.length = c2.length + 1) (hj : j < c2.length) :
    (List.zipWith and (fitSeries c1 c2).1 (fitSeries c1 c2).2).getD j
      false = (c1.getD (j + 1) false && c2.getD j false) := by
  have hf1 : (fitSeries c1 c2).1.getD j false = c1.getD (j + 1) false := by
    rw [fitSeries_fst_getD c1 c2 j false (by omega)]
    congr 1
    omega
  have hf2 : (fitSeries c1 c2).2.getD j false = c2.getD j false := by
    rw [fitSeries_snd_getD c1 c2 j false (by omega)]
    congr 1
    omega
  rw [getD_zipWith and (fitSeries c1 c2).1 (fitSeries c1 c2).2 j false
      false false
      (by rw [fitSeries_fst_length]; omega)
      (by rw [fitSeries_snd_length]; omega),
    hf1, hf2]

/-- C9: `CrossOver` aligns the two series to their common trailing window
and, writing `a, b` for the aligned series, its output at position `i - 1`
is true exactly when `a[i] > b[i]` and `a[i-1] ≤ b[i-1]` (the output is one
shorter than the aligned window because the one-bar-ago comparison consumes
one position). -/
theorem c9_crossover_char (s1 s2 : List ℚ) (i : Nat) (h1 : 1 ≤ i)
    (hi : i < min s1.length s2.length) :
    (CrossOver s1 s2).getD (i - 1) false =
      (decide ((fitSeries s1 s2).2.getD i 0 <
               (fitSeries s1 s2).1.getD i 0) &&
       decide ((fitSeries s1 s2).1.getD (i - 1) 0 ≤
               (fitSeries s1 s2).2.getD (i - 1) 0)) := by
  obtain ⟨c1, hc1⟩ : ∃ c, c = List.zipWith (fun x y => decide (y < x))
      (fitSeries s1 s2).1 (fitSeries s1 s2).2 := ⟨_, rfl⟩
  obtain ⟨c2, hc2⟩ : ∃ c, c = List.zipWith (fun x y => decide (x ≤ y))
      (fitSeries (agoView s1) (agoView s2)).1
      (fitSeries (agoView s1) (agoView s2)).2 := ⟨_, rfl⟩
  have hcross : CrossOver s1 s2 =
      List.zipWith and (fitSeries c1 c2).1 (fitSeries c1 c2).2 := by
    rw [hc1, hc2]; rfl
  have hc1len : c1.length = min s1.length s2.length := by
    rw [hc1, List.length_zipWith, fitSeries_fst_length, fitSeries_snd_length]
    omega
  have hc2len : c2.length = min s1.length s2.length - 1 := by
    rw [hc2, List.length_zipWith, fitSeries_fst_length, fitSeries_snd_length]
    simp only [agoView, List.length_dropLast]
    omega
  have hfit1 : (fitSeries (agoView s1) (agoView s2)).1.getD (i - 1) 0 =
      (fitSeries s1 s2).1.getD (i - 1) 0 := by
    rw [fitSeries_fst_getD (agoView s1) (agoView s2) (i - 1) 0
      (by simp only [agoView, List.length_dropLast]; omega)]
    rw [fitSeries_fst_getD s1 s2 (i - 1) 0 (by omega)]
    simp only [agoView]
    have e1 : s1.dropLast.length -
        min s1.dropLast.length s2.dropLast.length + (i - 1) =
        s1.length - min s1.length s2.length + (i - 1) := by
      simp only [List.length_dropLast]; omega
    rw [e1]
    exact getD_dropLast' s1
      (s1.length - min s1.length s2.length + (i - 1)) 0 (by omega)
  have hfit2 : (fitSeries (agoView s1) (agoView s2)).2.getD (i - 1) 0 =
      (fitSeries s1 s2).2.getD (i - 1) 0 := by
    rw [fitSeries_snd_getD (agoView s1) (agoView s2) (i - 1) 0
      (by simp only [agoView, List.length_dropLast]; omega)]
    rw [fitSeries_snd_getD s1 s2 (i - 1) 0 (by omega)]
    simp only [agoView]
    have e2 : s2.dropLast.length -
        min s1.dropLast.length s2.dropLast.length + (i - 1) =
        s2.length - min s1.length s2.length + (i - 1) := by
      simp only [List.length_dropLast]; omega
    rw [e2]
    exact getD_dropLast' s2
      (s2.length - min s1.length s2.length + (i - 1)) 0 (by omega)
  have hc1i : c1.getD i false =
      decide ((fitSeries s1 s2).2.getD i 0 <
              (fitSeries s1 s2).1.getD i 0) := by
    rw [hc1]
    exact getD_zipWith (fun x y => decide (y < x))
      (fitSeries s1 s2).1 (fitSeries s1 s2).2 i false 0 0
      (by rw [fitSeries_fst_length]; omega)
      (by rw [fitSeries_snd_length]; omega)
  have hc2i : c2.getD (i - 1) false =
      decide ((fitSeries s1 s2).1.getD (i - 1) 0 ≤
              (fitSeries s1 s2).2.getD (i - 1) 0) := by
    rw [hc2]
    rw [getD_zipWith (fun x y => decide (x ≤ y))
      (fitSeries (agoView s1) (agoView s2)).1
      (fitSeries (agoView s1) (agoView s2)).2 (i - 1) false 0 0
      (by rw [fitSeries_fst_length]
          simp only [agoView, List.length_dropLast]; omega)
      (by rw [fitSeries_snd_length]
          simp only [agoView, List.length_dropLast]; omega)]
    rw [hfit1, hfit2]
  rw [hcross, zip_fit_and_getD c1 c2 (i - 1) (by omega) (by omega),
    (show i - 1 + 1 = i by omega), hc1i, hc2i]

/-- Witness for C9: `s1 = [1, 3, 2]`, `s2 = [2, 2, 2]` — the output is
`[true, false]`, true exactly at the position corresponding to original
index 1, where `s1` rises from `1 ≤ 2` to `3 > 2`. -/
theorem c9_crossover_witness :
    CrossOver [1, 3, 2] [2, 2, 2] = [true, false] ∧
    (CrossOver [1, 3, 2] [2, 2, 2]).getD 0 false =
      (decide ((fitSeries [1, 3, 2] [2, 2, 2]).2.getD 1 0 <
               (fitSeries [1, 3, 2] [2, 2, 2]).1.getD 1 0) &&
       decide ((fitSeries [1, 3, 2] [2, 2, 2]).1.getD 0 0 ≤
               (fitSeries [1, 3, 2] [2, 2, 2]).2.getD 0 0)) :=
  ⟨by decide, by
    have h := c9_crossover_char [1, 3, 2] [2, 2, 2] 1 (by decide) (by decide)
    simpa using h⟩
